import Mathlib

/-!
Verification of the entropy package-manager core against its specification.

This file shallowly embeds the relevant parts of the sources:
  * `libraries/entropy/dep.py` — version comparison (`compare_versions`,
    `entropy_compare_versions`) and the boolean dependency-expression
    machinery of `DependencyStringParser`;
  * `lib/entropy/client/interfaces/methods.py` — the resource lock
    manager (`MiscMixin`) and the repository stack (`RepositoryMixin`).

Python machine integers are modelled as `ℤ`/`ℕ`; Python floats (which the
version comparator produces with `float("0." + segment)`) are modelled as
the exact rational value of the IEEE-754 binary64 double nearest to the
decimal input (round-to-nearest, ties to even), which is what CPython's
correctly-rounded `float()` constructor yields.  Subtraction of two such
doubles is modelled exactly in `ℚ`; CPython rounds the magnitude of the
difference but never its sign, and only signs are at stake in the claims.
-/

namespace Entropy

/-! ### Small Python-string helpers -/

/-- The characters Python's `str.strip()` removes. -/
def pyWs (c : Char) : Bool :=
  c = ' ' ∨ c = '\t' ∨ c = '\n' ∨ c = '\x0d' ∨ c = '\x0b' ∨ c = '\x0c'

/-- Python `str.strip()` on a list of characters. -/
def pyStrip (l : List Char) : List Char :=
  ((l.dropWhile pyWs).reverse.dropWhile pyWs).reverse

/-- Numeric value of a digit string, as `int()` computes it
(leading zeroes allowed).  Defined as `0` on the empty list, which the
version comparator never reaches with a meaningful value. -/
def natOfDigits (l : List Char) : ℕ :=
  l.foldl (fun n c => 10 * n + (c.toNat - '0'.toNat)) 0

/-! ### The version regular expression

`ver_regexp = ^(cvs\.)?(\d+)((\.\d+)*)([a-z]?)((_(pre|p|beta|alpha|rc)\d*)*)(-r(\d+))?$`
(dep.py lines 30–38).  `parseVer` is a deterministic parser equivalent to
`ver_regexp.match`: at every point where the regex engine could branch,
the greedy/leftmost choice is the only one that can lead to an overall
match (e.g. after matching the literal `pre`, the shorter alternative `p`
would leave `re…` unconsumable), so no backtracking is needed.  Python's
`$` also matches just before one trailing newline, hence the final test.
-/

/-- Result of a successful `ver_regexp.match`: the capture groups. -/
structure PyVer where
  /-- group 1: optional `cvs.` prefix. -/
  cvs : Bool
  /-- group 2: the leading digit run. -/
  major : List Char
  /-- group 3 split on dots: the `.\d+` segments (each nonempty). -/
  dotted : List (List Char)
  /-- group 5: the optional trailing letter. -/
  letter : Option Char
  /-- group 6 split on `_`: the `(pre|p|beta|alpha|rc)\d*` suffixes. -/
  suffixes : List (String × List Char)
  /-- group 10: the optional `-r` revision digits. -/
  rev : Option (List Char)
  deriving DecidableEq

/-- Take the leading run of ASCII digits: `\d+`/`\d*`. -/
def takeDigits : List Char → List Char × List Char
  | [] => ([], [])
  | c :: rest =>
    if c.isDigit then
      let (ds, r) := takeDigits rest
      (c :: ds, r)
    else ([], c :: rest)

/-- The `(\.\d+)*` loop.  First argument: the digits of the segment being
read, if a segment is open. -/
def dotsGo : Option (List Char) → List Char → List (List Char) × List Char
  | none, [] => ([], [])
  | none, [c] => ([], [c])
  | none, c1 :: c2 :: rest =>
    if c1 = '.' ∧ c2.isDigit then dotsGo (some [c2]) rest
    else ([], c1 :: c2 :: rest)
  | some ds, [] => ([ds], [])
  | some ds, [c1] =>
    if c1.isDigit then dotsGo (some (ds ++ [c1])) []
    else ([ds], [c1])
  | some ds, c1 :: c2 :: r2 =>
    if c1.isDigit then dotsGo (some (ds ++ [c1])) (c2 :: r2)
    else if c1 = '.' then
      (if c2.isDigit then
        let (segs, r) := dotsGo (some [c2]) r2
        (ds :: segs, r)
       else ([ds], c1 :: c2 :: r2))
    else ([ds], c1 :: c2 :: r2)

/-- State of the suffix scanner: either expecting a keyword (just after
`_`), or reading the `\d*` of the suffix `kw`. -/
inductive SufMode where
  | start
  | dig (kw : String) (ds : List Char)

/-- The `((_(pre|p|beta|alpha|rc)\d*)*)` loop; `none` when the tail can
not complete a match (a `_` that no alternative can absorb). The regex
alternation prefers `pre` over `p`. -/
def sufGo : SufMode → List Char → Option (List (String × List Char) × List Char)
  | .start, 'p' :: 'r' :: 'e' :: rest => sufGo (.dig "pre" []) rest
  | .start, 'b' :: 'e' :: 't' :: 'a' :: rest => sufGo (.dig "beta" []) rest
  | .start, 'a' :: 'l' :: 'p' :: 'h' :: 'a' :: rest => sufGo (.dig "alpha" []) rest
  | .start, 'r' :: 'c' :: rest => sufGo (.dig "rc" []) rest
  | .start, 'p' :: rest => sufGo (.dig "p" []) rest
  | .start, _ => none
  | .dig kw ds, [] => some ([(kw, ds)], [])
  | .dig kw ds, c :: rest =>
    if c.isDigit then sufGo (.dig kw (ds ++ [c])) rest
    else if c = '_' then
      match sufGo .start rest with
      | none => none
      | some (sufs, r) => some ((kw, ds) :: sufs, r)
    else some ([(kw, ds)], c :: rest)

/-- Entry point of the suffix part. -/
def parseSufs : List Char → Option (List (String × List Char) × List Char)
  | '_' :: rest => sufGo .start rest
  | l => some ([], l)

/-- The `(-r(\d+))?` part.  If `-r` is present but no digit follows, the
optional group matches empty and the leftover text fails the `$` check. -/
def parseRev (l : List Char) : Option (List Char) × List Char :=
  match l with
  | '-' :: 'r' :: rest =>
    let (ds, r) := takeDigits rest
    if ds.isEmpty then (none, l) else (some ds, r)
  | _ => (none, l)

/-- The optional `(cvs\.)?` prefix. -/
def cvsSplit (l : List Char) : Bool × List Char :=
  match l with
  | 'c' :: 'v' :: 's' :: '.' :: r => (true, r)
  | _ => (false, l)

/-- The optional `([a-z]?)` trailing letter. -/
def letterSplit (l : List Char) : Option Char × List Char :=
  match l with
  | c :: r => if 'a' ≤ c ∧ c ≤ 'z' then (some c, r) else (none, c :: r)
  | [] => (none, [])

/-- Source: `ver_regexp.match(s)`:  `some` of the capture groups on a match,
`none` otherwise. -/
def parseVer (s : String) : Option PyVer :=
  let cv := cvsSplit s.data
  let mj := takeDigits cv.2
  if mj.1.isEmpty then none
  else
    let dt := dotsGo none mj.2
    let lt := letterSplit dt.2
    match parseSufs lt.2 with
    | none => none
    | some (sufs, l5) =>
      let rv := parseRev l5
      if rv.2 = [] ∨ rv.2 = ['\n'] then
        some ⟨cv.1, mj.1, dt.1, lt.1, sufs, rv.1⟩
      else none

/-! ### IEEE-754 binary64 model of `float("0." + digits)` -/

/-- Round `a / b` to the nearest integer, ties to even. -/
def rne (a b : ℕ) : ℕ :=
  let q := a / b
  let r := a % b
  if 2 * r < b then q
  else if b < 2 * r then q + 1
  else if q % 2 = 0 then q else q + 1

/-- Least `k` with `n * 2^k ≥ tend`, by doubling (`fuel` bounds the
search; callers supply enough). -/
def k0fl : ℕ → ℕ → ℕ → ℕ
  | 0, _, _ => 0
  | f + 1, n, tend => if tend ≤ n then 0 else k0fl f (2 * n) tend + 1

/-- The exact rational value of the IEEE-754 binary64 double nearest to
the decimal `0.<digits>` (round to nearest, ties to even) — the value
CPython's `float("0." + digits)` produces.  For the quantity `q = n/10^d
∈ (0,1)` the binade exponent `e = -k` satisfies `2^e ≤ q < 2^(e+1)`; a
normal double is `m·2^(e-52)` with `m` the correctly rounded mantissa
(`m = 2^53`, i.e. a carry into the next binade, still denotes the right
value), and quantities below `2^-1022` round on the fixed subnormal grid
`2^-1074`. -/
def toDouble (digits : List Char) : ℚ :=
  let n := natOfDigits digits
  let d := digits.length
  if n = 0 then 0
  else
    let k := k0fl (4 * d + 8) n (10 ^ d)
    if k ≤ 1022 then
      mkRat (rne (n * 2 ^ (52 + k)) (10 ^ d)) (2 ^ (52 + k))
    else
      mkRat (rne (n * 2 ^ 1074) (10 ^ d)) (2 ^ 1074)

/-! ### `compare_versions` (dep.py lines 480–595) -/

/-- Value of a nonempty dotted segment when the integer branch is taken. -/
def intQ (l : List Char) : ℚ := (natOfDigits l : ℚ)

/-- One iteration of the dotted-segment loop (lines 525–542): a pair of
versions' segments at one index become a pair of numbers.  A missing or
empty segment is `-1` and forces `int()` on the other side; two segments
neither of which has a leading zero compare as ints; otherwise both are
`float("0." + segment)`. -/
def segPairs : List (List Char) → List (List Char) → List (ℚ × ℚ)
  | [], ys => ys.map fun y => (-1, intQ y)
  | x :: xs, [] => (intQ x, -1) :: xs.map fun x' => (intQ x', -1)
  | x :: xs, y :: ys =>
    (if x = [] then (-1, intQ y)
     else if y = [] then (intQ x, -1)
     else if x.head? ≠ some '0' ∧ y.head? ≠ some '0' then (intQ x, intQ y)
     else (toDouble x, toDouble y)) :: segPairs xs ys

/-- Source: `match.group(3)[1:].split(".")`: an empty group 3 yields the single
empty string. -/
def adjD (l : List (List Char)) : List (List Char) :=
  if l.isEmpty then [[]] else l

/-- The dotted loop runs only when at least one side has dotted segments
(line 522). -/
def dottedPairs (p q : PyVer) : List (ℚ × ℚ) :=
  if p.dotted.isEmpty ∧ q.dotted.isEmpty then []
  else segPairs (adjD p.dotted) (adjD q.dotted)

/-- Source: `int(match.group(2))`. -/
def majorQ (p : PyVer) : ℚ := (natOfDigits p.major : ℚ)

/-- Source: `ord` of the optional trailing letter (lines 545–548). -/
def letterQ (p : PyVer) : List ℚ :=
  match p.letter with
  | some c => [(c.toNat : ℚ)]
  | none => []

/-- Source: `list1` as built by lines 518–548. -/
def vlist1 (p q : PyVer) : List ℚ :=
  majorQ p :: ((dottedPairs p q).map Prod.fst ++ letterQ p)

/-- Source: `list2` as built by lines 518–548. -/
def vlist2 (p q : PyVer) : List ℚ :=
  majorQ q :: ((dottedPairs p q).map Prod.snd ++ letterQ q)

/-- The first-difference loop of lines 550–556: `-1`/`1` when one list
runs out first, the numeric difference at the first differing index, and
`none` when the loop falls through to the suffix comparison. -/
def cmpLoop : List ℚ → List ℚ → Option ℚ
  | [], [] => none
  | [], _ :: _ => some (-1)
  | _ :: _, [] => some 1
  | a :: as, b :: bs => if a ≠ b then some (a - b) else cmpLoop as bs

/-- Source: `suffix_value` (line 40); `"p"` maps to 0. -/
def suffixValue (kw : String) : ℤ :=
  if kw = "pre" then -2
  else if kw = "alpha" then -4
  else if kw = "beta" then -3
  else if kw = "rc" then -1
  else 0

/-- Source: `int(s[1])` with the `ValueError` fallback to 0 (lines 576–583). -/
def sufNum (ds : List Char) : ℤ :=
  if ds.isEmpty then 0 else (natOfDigits ds : ℤ)

/-- One step of the suffix loop (lines 562–584): keywords compare by
`suffix_value`; then the digit *strings* are compared, and if they
differ the difference of their numeric values is returned — even when
that difference is 0. -/
def sufStep (a b : String × List Char) (rest : Option ℤ) : Option ℤ :=
  if a.1 ≠ b.1 then some (suffixValue a.1 - suffixValue b.1)
  else if a.2 ≠ b.2 then some (sufNum a.2 - sufNum b.2)
  else rest

/-- The tail of the suffix loop once the left list is exhausted. -/
def sufLoopR : List (String × List Char) → Option ℤ
  | [] => none
  | b :: bs => sufStep ("p", ['0']) b (sufLoopR bs)

/-- The tail of the suffix loop once the right list is exhausted. -/
def sufLoopL : List (String × List Char) → Option ℤ
  | [] => none
  | a :: as => sufStep a ("p", ['0']) (sufLoopL as)

/-- The suffix loop; a missing suffix defaults to `("p", "0")`. -/
def sufLoop : List (String × List Char) → List (String × List Char) → Option ℤ
  | [], bs => sufLoopR bs
  | a :: as, [] => sufStep a ("p", ['0']) (sufLoopL as)
  | a :: as, b :: bs => sufStep a b (sufLoop as bs)

/-- Source: `int(match.group(10))` with default 0 (lines 587–594). -/
def revQ (p : PyVer) : ℤ :=
  match p.rev with
  | some ds => (natOfDigits ds : ℤ)
  | none => 0

/-- The comparison of two successfully matched versions
(lines 516–595). -/
def versionsCmpQ (p q : PyVer) : ℚ :=
  match cmpLoop (vlist1 p q) (vlist2 p q) with
  | some d => d
  | none =>
    match sufLoop p.suffixes q.suffixes with
    | some z => (z : ℚ)
    | none => ((revQ p - revQ q : ℤ) : ℚ)

/-- Source: `compare_versions(ver1, ver2)` (dep.py lines 480–595).  Equal strings
short-circuit to 0; an unmatched `ver1` yields 0 (`invalid_rc` stays 0),
an unmatched `ver2` (with `ver1` matched) yields 1. -/
def compare_versions (ver1 ver2 : String) : ℚ :=
  if ver1 = ver2 then 0
  else
    match parseVer ver1 with
    | none => 0
    | some p =>
      match parseVer ver2 with
      | none => 1
      | some q => versionsCmpQ p q

/-! ### `entropy_compare_versions` (dep.py lines 614–674) -/

/-- Modelled from the spec: `const_cmp` (entropy.const, not under src/)
is Python 2's builtin `cmp` — `-1`, `0` or `1` by the natural (here
lexicographic string) order. -/
def const_cmp (a b : String) : ℤ :=
  if a = b then 0 else if a < b then -1 else 1

/-- Source: `entropy_compare_package_tags` (lines 614–626). -/
def entropy_compare_package_tags (a b : String) : ℤ := const_cmp a b

/-- Source: `entropy_compare_versions(ver_data, ver_data2)` (lines 639–674) on
`(version, tag, revision)` triples; an absent tag is the empty (falsy)
string. -/
def entropy_compare_versions (vd1 vd2 : String × String × ℤ) : ℚ :=
  let a_ver := vd1.1; let a_tag := vd1.2.1; let a_rev := vd1.2.2
  let b_ver := vd2.1; let b_tag := vd2.2.1; let b_rev := vd2.2.2
  -- if both are tagged, check tag first
  let rc0 : ℚ := if a_tag ≠ "" ∧ b_tag ≠ "" then (const_cmp a_tag b_tag : ℚ) else 0
  let rc1 : ℚ := if rc0 = 0 then compare_versions a_ver b_ver else rc0
  if rc1 = 0 then
    let tag_cmp := entropy_compare_package_tags a_tag b_tag
    if tag_cmp < 0 then -1
    else if 0 < tag_cmp then 1
    else if b_rev < a_rev then 1
    else if a_rev < b_rev then -1
    else 0
  else rc1

/-! ### `DependencyStringParser` (dep.py lines 782–961)

The Python code manipulates heterogeneous lists that hold either plain
strings (leaf atoms and the operator tokens `"&"`/`"|"`) or nested
lists.  `Item` is that value space.  Exceptions are modelled with
`Except`: `malformed` is the `MalformedDependency` that `parse()`
catches, `typeErr` is the `TypeError` raised when the tuple unpacking
`matched, outcome = self.__evaluate_subs(...)` meets the `None` that
`__evaluate_subs` returns when no branch applies (only
`MalformedDependency` is caught, so `typeErr` escapes to the caller).
The mutual recursion of `__split_subs`/`__encode_sub` and the recursion
of `__evaluate_subs` over nested lists are driven by a structural fuel
argument; every entry point supplies more fuel than the input's length,
which the strictly shrinking recursion can never exhaust. -/

/-- An element of the Python parse lists: a string or a nested list. -/
inductive Item where
  | str (s : String)
  | lst (l : List Item)

/-- The three ways an embedded call can abort. -/
inductive EvalErr where
  | malformed
  | typeErr
  | fuelOut
  deriving DecidableEq

/-- Python `"tok" in iterable` (string/list comparison is always
unequal). -/
def containsStr (t : String) (l : List Item) : Bool :=
  l.any fun
    | .str s => s == t
    | .lst _ => false

/-- Python `[x for x in iterable if x != tok]`. -/
def dropTok (t : String) (l : List Item) : List Item :=
  l.filter fun
    | .str s => !(s == t)
    | .lst _ => true

/-- Source: `_subs = [x for x in iterable if isinstance(x, list)]` is nonempty. -/
def hasLst (l : List Item) : Bool :=
  l.any fun
    | .str _ => false
    | .lst _ => true

/-- The string elements of a list that (in the branch where this is
used) contains no nested lists. -/
def strsOf (l : List Item) : List String :=
  l.filterMap fun
    | .str s => some s
    | .lst _ => none

/-- Source: `if cur_str.strip(): subs.append(cur_str.strip())`. -/
def flushed (subs : List Item) (cur : List Char) : List Item :=
  if (pyStrip cur).isEmpty then subs else subs ++ [.str (String.mk (pyStrip cur))]

/-- Source: `__split_subs` (lines 824–868): the character scan with its
`deep_count`/`cur_str`/`subs` state.  `enc` is the `__encode_sub` call
made when a parenthesised group closes at depth 0. -/
def splitScanGo (enc : List Char → Except EvalErr (List Item)) :
    Int → List Char → List Item → List Char → Except EvalErr (List Item)
  | _, cur, subs, [] =>
    .ok (if cur.isEmpty then subs else subs ++ [.str (String.mk (pyStrip cur))])
  | deep, cur, subs, c :: rest =>
    if c = ' ' then splitScanGo enc deep cur subs rest
    else if c = '(' then
      (if deep = 0 then splitScanGo enc (deep + 1) [c] (flushed subs cur) rest
       else splitScanGo enc (deep + 1) (cur ++ [c]) subs rest)
    else if c = '|' ∧ deep = 0 then
      splitScanGo enc deep [] (flushed subs cur ++ [.str "|"]) rest
    else if c = '&' ∧ deep = 0 then
      splitScanGo enc deep [] (flushed subs cur ++ [.str "&"]) rest
    else if c = ')' then
      (if deep - 1 = 0 then
        match enc (pyStrip (cur ++ [c])) with
        | .error e => .error e
        | .ok [] => .error .malformed      -- unreachable: `enc` never yields `ok []`
        | .ok [d] => splitScanGo enc (deep - 1) [] (subs ++ [d]) rest
        | .ok ds => splitScanGo enc (deep - 1) [] (subs ++ [.lst ds]) rest
       else splitScanGo enc (deep - 1) (cur ++ [c]) subs rest)
    else splitScanGo enc deep (cur ++ [c]) subs rest

/-- Python `s.find(c)`: index of the first occurrence, if any. -/
def pyFind (c : Char) (s : List Char) : Option ℕ :=
  s.findIdx? (· = c)

/-- Python `s.rfind(c)`: index of the last occurrence, if any. -/
def pyRfind (c : Char) (s : List Char) : Option ℕ :=
  (s.reverse.findIdx? (· = c)).map (fun i => s.length - 1 - i)

/-- Source: `__encode_sub` (lines 926–946).  `dep.find("(")` returning `-1`
makes the slice start at 0, and `dep.rfind(")")` returning `-1` makes
the slice `dep[…:-1]`, i.e. it ends before the last character. -/
def encodeSub : ℕ → List Char → Except EvalErr (List Item)
  | 0, _ => .error .fuelOut
  | fuel + 1, s =>
    let start := match pyFind '(' s with | none => 0 | some i => i + 1
    let stop := match pyRfind ')' s with | none => s.length - 1 | some i => i
    let substring := (s.take stop).drop start
    if substring.isEmpty then .error .malformed
    else
      match splitScanGo (encodeSub fuel) 0 [] [] substring with
      | .error e => .error e
      | .ok [] => .error .malformed
      | .ok subs => .ok subs

/-- The AND loop of `__evaluate_subs` with no nested lists present
(lines 879–888): all-or-nothing, returning the filtered iterable. -/
def andLeaf (pred : String → Bool) (l : List String) : Bool × List String :=
  if l.all pred then (true, l) else (false, [])

/-- The OR loop with no nested lists present (lines 890–895):
first match wins, only that leaf is reported. -/
def orLeaf (pred : String → Bool) : List String → Bool × List String
  | [] => (false, [])
  | s :: rest => if pred s then (true, [s]) else orLeaf pred rest

/-- The AND loop with nested lists present (lines 899–913).  `ev` is
the recursive `__evaluate_subs` call; its `None` result is a `TypeError`
at the `matched, outcome = …` unpacking. -/
def andMixGo (ev : List Item → Except EvalErr (Option (Bool × List String)))
    (pred : String → Bool) : List Item → Except EvalErr (Bool × List String)
  | [] => .ok (true, [])
  | .lst l :: rest =>
    match ev l with
    | .error e => .error e
    | .ok none => .error .typeErr
    | .ok (some (true, out)) =>
      (match andMixGo ev pred rest with
       | .ok (true, outs) => .ok (true, out ++ outs)
       | other => other)
    | .ok (some (false, _)) => .ok (false, [])
  | .str s :: rest =>
    if pred s then
      (match andMixGo ev pred rest with
       | .ok (true, outs) => .ok (true, s :: outs)
       | other => other)
    else .ok (false, [])

/-- The OR loop with nested lists present (lines 915–924). -/
def orMixGo (ev : List Item → Except EvalErr (Option (Bool × List String)))
    (pred : String → Bool) : List Item → Except EvalErr (Bool × List String)
  | [] => .ok (false, [])
  | .lst l :: rest =>
    match ev l with
    | .error e => .error e
    | .ok none => .error .typeErr
    | .ok (some (true, out)) => .ok (true, out)
    | .ok (some (false, _)) => orMixGo ev pred rest
  | .str s :: rest => if pred s then .ok (true, [s]) else orMixGo ev pred rest

/-- Source: `__evaluate_subs` (lines 870–924).  `pred` is the externally
supplied leaf predicate (`Dependency.__nonzero__`, i.e. "does this atom
match the repository").  `.ok none` is Python's implicit `return None`
reached when nested lists are present but neither operator token is. -/
def evaluateSubs : ℕ → (String → Bool) → List Item →
    Except EvalErr (Option (Bool × List String))
  | 0, _, _ => .error .fuelOut
  | fuel + 1, pred, iterable =>
    if containsStr "&" iterable ∧ containsStr "|" iterable then .error .malformed
    else if hasLst iterable = false then
      if containsStr "&" iterable then
        .ok (some (andLeaf pred (strsOf (dropTok "&" iterable))))
      else if containsStr "|" iterable then
        .ok (some (orLeaf pred (strsOf (dropTok "|" iterable))))
      else .error .malformed
    else
      if containsStr "&" iterable then
        match andMixGo (evaluateSubs fuel pred) pred (dropTok "&" iterable) with
        | .error e => .error e
        | .ok r => .ok (some r)
      else if containsStr "|" iterable then
        match orMixGo (evaluateSubs fuel pred) pred (dropTok "|" iterable) with
        | .error e => .error e
        | .ok r => .ok (some r)
      else .ok none

/-- Source: `parse()` (lines 948–961): evaluate
`__encode_sub("(" + dep + ")")`, catching only `MalformedDependency`
(which yields `(False, [])`).  `some` is a normal return; `none` models
the call terminating with an uncaught exception (the `TypeError` from
unpacking `None`). -/
def pyParse (pred : String → Bool) (dep : String) : Option (Bool × List String) :=
  let chars := '(' :: dep.data ++ [')']
  match encodeSub (chars.length + 1) chars with
  | .error .malformed => some (false, [])
  | .error _ => none
  | .ok items =>
    match evaluateSubs (chars.length + 1) pred items with
    | .ok (some r) => some r
    | .ok none => none
    | .error .malformed => some (false, [])
    | .error _ => none

/-! ### The resource lock manager (methods.py lines 1665–1903)

`MiscMixin._FILE_LOCK_MAP` keeps, per lock path, a `{count, ref}`
record; `ref` is the `FlockFile` object once the lock is held.  The OS
side (`FlockFile`, from entropy.misc which is not under src/) is
modelled from the spec as an advisory lock per path, with the outcome of
a contended non-blocking attempt (`tryOk`) and the content test
`str(os.getpid()) == stored_pid` (`pidMatch`) supplied as oracles,
since they depend on other processes.  The filesystem environment is
assumed healthy (directories exist, no permission errors). -/

/-- The `FlockFile` reference stored in `lock_data['ref']`. -/
structure FlockRef where
  shared : Bool
  deriving DecidableEq

/-- One `_FILE_LOCK_MAP` record. -/
structure LockEntry where
  count : ℕ
  ref : Option FlockRef
  deriving DecidableEq

/-- Process state of the lock manager plus the visible OS state:
whether this process holds the advisory lock on a path (and in which
mode), and whether the lock file exists. -/
structure LockSys where
  entries : String → LockEntry
  osHeld : String → Option Bool
  fileExists : String → Bool

/-- A fresh process: `_FILE_LOCK_MAP` empty (`_file_lock_setup`
allocates `{count: 0, ref: None}` on demand), no OS locks, no lock
files. -/
def initLockSys : LockSys :=
  ⟨fun _ => ⟨0, none⟩, fun _ => none, fun _ => false⟩

/-- Replace the map record of one path. -/
def setEntry (s : LockSys) (p : String) (e : LockEntry) : LockSys :=
  { s with entries := fun q => if q = p then e else s.entries q }

/-- Source: `_file_lock_create` (lines 1756–1812).  `open(pidfile, "a+")`
creates the lock file; a blocking `acquire_*` returns once the lock is
held; a non-blocking `try_acquire_*` yields `tryOk`; on a failed
non-blocking attempt the pid stored in the file is compared with the
current pid (`pidMatch`) and a match grants the acquisition without
setting `lock_data['ref']` — for shared mode as well, the code comment
notwithstanding.  On a lock-based success in exclusive mode the
process's pid is written into the file (the file's content is not
tracked beyond the `pidMatch` oracle), and `lock_data['ref']` is set. -/
def fileLockCreate (p : String) (blocking shared tryOk pidMatch : Bool)
    (s : LockSys) : Bool × LockSys :=
  let s1 := { s with fileExists := fun q => if q = p then true else s.fileExists q }
  if blocking ∨ tryOk then
    let s2 := { s1 with osHeld := fun q => if q = p then some shared else s1.osHeld q }
    let e := s2.entries p
    (true, setEntry s2 p { e with ref := some ⟨shared⟩ })
  else if pidMatch then (true, s1)
  else (false, s1)

/-- Source: `_lock_resource` (lines 1693–1707): reentrant success when `ref` is
already set — without touching `count`; otherwise `_file_lock_create`,
and `count` is incremented on success. -/
def lockResource (p : String) (blocking shared tryOk pidMatch : Bool)
    (s : LockSys) : Bool × LockSys :=
  let mapped := s.entries p
  if mapped.ref.isSome then (true, s)
  else
    let (acquired, s') := fileLockCreate p blocking shared tryOk pidMatch s
    if acquired then
      let e := s'.entries p
      (true, setEntry s' p { e with count := e.count + 1 })
    else (false, s')

/-- Source: `_unlock_resource` (lines 1726–1754): decrement `count` (not below
0); if it is still positive, return; otherwise, when a `ref` is held,
remove the lock file (`ENOENT`/`EROFS` tolerated), release and close
the OS lock, and clear `ref`. -/
def unlockResource (p : String) (s : LockSys) : LockSys :=
  let mapped := s.entries p
  let c1 := if 0 < mapped.count then mapped.count - 1 else mapped.count
  if 0 < c1 then setEntry s p { mapped with count := c1 }
  else
    match mapped.ref with
    | none => setEntry s p { mapped with count := c1 }
    | some _ =>
      { entries := fun q => if q = p then ⟨c1, none⟩ else s.entries q
        osHeld := fun q => if q = p then none else s.osHeld q
        fileExists := fun q => if q = p then false else s.fileExists q }

/-! ### The repository stack (methods.py lines 50–491)

State visible to the claims: the `SystemSettings` maps
`['repositories']['available'/'excluded'/'order']`, the client's
`_enabled_repos`, the handle caches `_repodb_cache` and
`_memory_db_instances` (keyed by `(repository_id, root)`; the root is
fixed within a session, so keys are ids), and which handles have been
closed.  `SystemSettings` itself (entropy.core.settings) and the
configuration files are not under src/; they are modelled from the
spec: persistent configuration is a map of repository entries (enabled
and disabled/commented), package/temporary repositories live in the
client settings plugin, and `SystemSettings.clear()` lazily rebuilds
the three maps from those two stores. -/

/-- Repository metadata; only the `__temporary__` flag matters here. -/
structure RepoMeta where
  temporary : Bool
  deriving DecidableEq

/-- The whole repository-stack state. -/
structure CState where
  available : List (String × RepoMeta)
  excluded : List (String × RepoMeta)
  order : List String
  enabled : List String
  repodbCache : List (String × ℕ)
  memoryDb : List (String × ℕ)
  confAvail : List (String × RepoMeta)
  confExcluded : List (String × RepoMeta)
  pluginPkg : List (String × RepoMeta)
  closedHandles : List ℕ
  dbfileExists : List String
  deriving DecidableEq

/-- Modelled from the spec: `etpConst['clientdbid']`, the reserved id
under which `_open_repository` returns the installed-packages
repository. -/
def clientdbid : String := "__system__"

/-- Source: `_is_package_repository` (lines 239–251): the id ends with
`etpConst['packagesext']` or `etpConst['packagesext_webinstall']`
(values modelled from the spec's package-file repositories). -/
def isPackageRepo (rid : String) : Bool :=
  rid.endsWith ".tbz2" || rid.endsWith ".etp"

/-- Remove every entry of a key from an association list (`dict.pop`). -/
def eraseKey {α : Type} (k : String) (l : List (String × α)) : List (String × α) :=
  l.filter fun kv => !(kv.1 == k)

/-- Modelled from the spec: `SystemSettings.clear()` — the repositories
view is rebuilt from the persistent configuration plus the client
plugin's package-repository records; package/temporary repositories sit
at the front of the priority order. -/
def settingsClear (s : CState) : CState :=
  { s with
    available := s.pluginPkg ++ s.confAvail
    excluded := s.confExcluded
    order := (s.pluginPkg ++ s.confAvail).map Prod.fst }

/-- Modelled from the spec: `__conf_add_remove_repository(rid, None)`
(lines 587–713) — drop the repository's enabled and commented-out lines
and its `repositories.conf.d` files; `accomplished` is whether any
were found. -/
def confRemove (rid : String) (s : CState) : Bool × CState :=
  let found := (s.confAvail.lookup rid).isSome ∨ (s.confExcluded.lookup rid).isSome
  (found, { s with confAvail := eraseKey rid s.confAvail
                   confExcluded := eraseKey rid s.confExcluded })

/-- Modelled from the spec: `__conf_enable_disable_repository(rid,
False)` (lines 493–585) — comment the repository's line out / rename
its conf.d file to the disabled form; `accomplished` is whether an
enabled entry was found. -/
def confDisable (rid : String) (s : CState) : Bool × CState :=
  match s.confAvail.lookup rid with
  | none => (false, s)
  | some meta =>
    (true, { s with confAvail := eraseKey rid s.confAvail
                    confExcluded := (rid, meta) :: eraseKey rid s.confExcluded })

/-- Source: `remove_repository` (lines 410–491). -/
def remove_repository (rid : String) (disable : Bool) (s : CState) :
    Bool × CState :=
  let done1 := (s.available.lookup rid).isSome ∨ (s.excluded.lookup rid).isSome
  let dbconn := s.repodbCache.lookup rid
  let s1 :=
    { s with
      available := eraseKey rid s.available
      excluded := eraseKey rid s.excluded
      enabled := s.enabled.erase rid
      order := s.order.erase rid
      repodbCache := eraseKey rid s.repodbCache }
  let (done2, s2) :=
    if done1 then
      -- sys_settings_client_plugin._drop_package_repository (KeyError tolerated)
      let sA := { s1 with pluginPkg := eraseKey rid s1.pluginPkg }
      let (d, sB) :=
        if isPackageRepo rid then (true, sA)
        else if disable then confDisable rid sA
        else confRemove rid sA
      (d, settingsClear sB)
    else (false, s1)
  let mem := s2.memoryDb.lookup rid
  let s3 :=
    { s2 with
      memoryDb := eraseKey rid s2.memoryDb
      closedHandles :=
        (match mem with | some h => [h] | none => []) ++
        (match dbconn with | some h => [h] | none => []) ++ s2.closedHandles }
  (done2, s3)

/-- Result of `open_repository`: the installed-packages handle, a
repository handle, or a raised `RepositoryError`. -/
inductive OpenResult where
  | installed
  | handle (h : ℕ)
  | repositoryError
  deriving DecidableEq

/-- Source: `open_repository`/`_open_repository`/`_load_repository`
(lines 193–329): the installed-db alias short-circuits, then the cache,
then the load path with its `RepositoryError` conditions: an id that is
neither enabled nor temporary nor available at all; an id missing from
`available`; a temporary id without a memory instance; a missing
backing file.  A fresh handle id is supplied for the newly opened
connection.  (The `repository_packages_spm_sync` block only touches
caches and swallows its own errors; it does not affect the result.) -/
def open_repository (rid : String) (fresh : ℕ) (s : CState) :
    OpenResult × CState :=
  if rid = clientdbid then (.installed, s)
  else
    match s.repodbCache.lookup rid with
    | some h => (.handle h, s)
    | none =>
      let tempFlag := ((s.available.lookup rid).map (·.temporary)).getD false
      if ¬ s.enabled.contains rid ∧ ¬ tempFlag ∧ (s.available.lookup rid).isNone then
        (.repositoryError, s)
      else
        match s.available.lookup rid with
        | none => (.repositoryError, s)
        | some meta =>
          if meta.temporary then
            match s.memoryDb.lookup rid with
            | none => (.repositoryError, s)
            | some h => (.handle h, { s with repodbCache := (rid, h) :: s.repodbCache })
          else if s.dbfileExists.contains rid then
            (.handle fresh, { s with repodbCache := (rid, fresh) :: s.repodbCache })
          else (.repositoryError, s)

/-! ## Claim theorems -/

/-- Claim C1. For every lock path, acquiring the resource lock twice in the
same process succeeds both times — but, contrary to the claim, a single
`_unlock_resource` already drops the OS advisory lock and removes the
lock file: the reentrant branch of `_lock_resource` returns without
incrementing `count`, so after two acquisitions the counter is still 1
and the first release takes it to 0.  This theorem evaluates the model
on that failing scenario (two blocking exclusive acquisitions from a
fresh process, then one release). -/
theorem C1_single_release_drops_lock :
    ∀ p : String,
      (lockResource p true false true false initLockSys).1 = true ∧
      (lockResource p true false true false
        (lockResource p true false true false initLockSys).2).1 = true ∧
      ((lockResource p true false true false
        (lockResource p true false true false initLockSys).2).2.entries p).count = 1 ∧
      (unlockResource p
        (lockResource p true false true false
          (lockResource p true false true false initLockSys).2).2).osHeld p = none ∧
      (unlockResource p
        (lockResource p true false true false
          (lockResource p true false true false initLockSys).2).2).fileExists p = false := by
  intro p
  simp [lockResource, fileLockCreate, unlockResource, initLockSys, setEntry]

/-- Witness for C1: the double-acquire/single-release scenario at a
concrete path. -/
theorem C1_single_release_drops_lock_witness :
    (lockResource "lock" true false true false initLockSys).1 = true ∧
    (lockResource "lock" true false true false
      (lockResource "lock" true false true false initLockSys).2).1 = true ∧
    ((lockResource "lock" true false true false
      (lockResource "lock" true false true false initLockSys).2).2.entries "lock").count = 1 ∧
    (unlockResource "lock"
      (lockResource "lock" true false true false
        (lockResource "lock" true false true false initLockSys).2).2).osHeld "lock" = none ∧
    (unlockResource "lock"
      (lockResource "lock" true false true false
        (lockResource "lock" true false true false initLockSys).2).2).fileExists "lock" = false :=
  C1_single_release_drops_lock "lock"

/-- Claim C6 (counterexample). The claim states that a failed non-blocking
*shared* attempt returns `False` even when the stored pid is the current
process's; in the code the pid check is reached for shared requests too,
and grants the acquisition. -/
theorem C6_counterexample_shared_pid_match_grants :
    (fileLockCreate "lock" false true false true initLockSys).1 = true := rfl

/-- Claim C6 (amended). When a non-blocking acquisition fails at the OS
level, `_file_lock_create` grants the acquisition exactly when the pid
stored in the lock file equals the current process id — in shared mode
just as in exclusive mode (the code comment about shared locks does not
translate into a conditional). -/
theorem C6_amended_pid_match_any_mode :
    ∀ (p : String) (shared pidMatch : Bool) (s : LockSys),
      (fileLockCreate p false shared false pidMatch s).1 = pidMatch := by
  intro p shared pidMatch s
  cases pidMatch <;> simp [fileLockCreate]

/-- Witness for C6: the amended statement at a concrete path and
state, in shared mode with a matching pid. -/
theorem C6_amended_pid_match_any_mode_witness :
    (fileLockCreate "lock" false true false true initLockSys).1 = true :=
  C6_amended_pid_match_any_mode "lock" true true initLockSys

/-- Claim C2 (counterexample). With an invalid first argument and a valid
second argument, `compare_versions` returns 0: the valid side does
*not* win when the invalid string occupies the first position
(`invalid_rc` is left at 0 when `match1` fails). -/
theorem C2_counterexample_invalid_first_arg :
    (parseVer "notaversion").isNone = true ∧
    (parseVer "1.0").isSome = true ∧
    compare_versions "notaversion" "1.0" = 0 ∧
    ¬ compare_versions "notaversion" "1.0" < 0 := by with_unfolding_all decide

/-- Claim C2 (amended). `compare_versions` tolerates malformed input
asymmetrically: whenever `ver1` does not match `ver_regexp` the result
is 0 (also when `ver2` is valid — the valid side wins only from the
first argument position); when `ver1` is valid and `ver2` is not, the
result is 1.  In particular two distinct invalid strings compare as
0. -/
theorem C2_amended_invalid_handling :
    ∀ v1 v2 : String,
      ((parseVer v1).isNone → compare_versions v1 v2 = 0) ∧
      ((parseVer v1).isSome → (parseVer v2).isNone → compare_versions v1 v2 = 1) := by
  intro v1 v2
  constructor
  · intro h
    by_cases hv : v1 = v2
    · simp [compare_versions, hv]
    · simp [compare_versions, hv, Option.isNone_iff_eq_none.mp h]
  · intro h1 h2
    have hv : v1 ≠ v2 := by
      intro hEq
      rw [hEq] at h1
      rw [Option.isNone_iff_eq_none.mp h2] at h1
      simp at h1
    obtain ⟨p, hp⟩ := Option.isSome_iff_exists.mp h1
    simp [compare_versions, hv, hp, Option.isNone_iff_eq_none.mp h2]

/-- Witness for C2: the amended statement at concrete inputs. -/
theorem C2_amended_invalid_handling_witness :
    compare_versions "abc" "1.0" = 0 ∧ compare_versions "1.0" "abc" = 1 :=
  ⟨(C2_amended_invalid_handling "abc" "1.0").1 (by decide),
   (C2_amended_invalid_handling "1.0" "abc").2 (by decide) (by decide)⟩

/-- Claim C7 (counterexample). With only one side tagged the tags differ,
and the claim predicts the (lexicographic) tag comparison decides —
which would be negative here since `"" < "tag"`; the code skips the
leading tag comparison unless *both* tags are non-empty, compares the
versions first, and returns 1. -/
theorem C7_counterexample_single_tag_not_first :
    entropy_compare_versions ("2.0", "", 0) ("1.0", "tag", 0) = 1 ∧
    entropy_compare_package_tags "" "tag" = -1 := by with_unfolding_all decide

/-- Claim C7 (amended). `entropy_compare_versions` decides by the tag
comparison first only when both tags are non-empty; otherwise (and when
the tags compare equal) `compare_versions` decides, with the
lexicographic tag comparison and then the revision integers as
tiebreaks applied only when the preceding stages yield 0. -/
theorem C7_amended_tag_version_revision_order :
    ∀ (av ta : String) (ra : ℤ) (bv tb : String) (rb : ℤ),
      (ta ≠ "" → tb ≠ "" → const_cmp ta tb ≠ 0 →
        entropy_compare_versions (av, ta, ra) (bv, tb, rb) = (const_cmp ta tb : ℚ)) ∧
      ((ta = "" ∨ tb = "" ∨ const_cmp ta tb = 0) → compare_versions av bv ≠ 0 →
        entropy_compare_versions (av, ta, ra) (bv, tb, rb) = compare_versions av bv) ∧
      ((ta = "" ∨ tb = "" ∨ const_cmp ta tb = 0) → compare_versions av bv = 0 →
        entropy_compare_versions (av, ta, ra) (bv, tb, rb) =
          if const_cmp ta tb < 0 then -1
          else if 0 < const_cmp ta tb then 1
          else if rb < ra then 1
          else if ra < rb then -1
          else 0) := by
  intro av ta ra bv tb rb
  have hz : (ta = "" ∨ tb = "" ∨ const_cmp ta tb = 0) →
      (if ta ≠ "" ∧ tb ≠ "" then ((const_cmp ta tb : ℚ)) else 0) = 0 := by
    intro h
    rcases h with h | h | h <;> simp [h]
  refine ⟨?_, ?_, ?_⟩
  · intro h1 h2 h3
    have hc : ((const_cmp ta tb : ℚ)) ≠ 0 := by
      exact_mod_cast h3
    simp [entropy_compare_versions, h1, h2, hc]
  · intro h1 h2
    simp [entropy_compare_versions, hz h1, h2]
  · intro h1 h2
    simp [entropy_compare_versions, hz h1, h2, entropy_compare_package_tags]

/-- Witness for C7: the three amended clauses at concrete inputs. -/
theorem C7_amended_tag_version_revision_order_witness :
    entropy_compare_versions ("1.0", "a", 0) ("1.0", "b", 0) = (const_cmp "a" "b" : ℚ) ∧
    entropy_compare_versions ("2.0", "", 0) ("1.0", "", 0) = compare_versions "2.0" "1.0" ∧
    entropy_compare_versions ("1.0", "", 5) ("1.0", "", 3) =
      if const_cmp "" "" < 0 then -1
      else if 0 < const_cmp "" "" then 1
      else if (3 : ℤ) < 5 then 1
      else if (5 : ℤ) < 3 then -1
      else 0 :=
  ⟨(C7_amended_tag_version_revision_order "1.0" "a" 0 "1.0" "b" 0).1
      (by decide) (by decide) (by with_unfolding_all decide),
   (C7_amended_tag_version_revision_order "2.0" "" 0 "1.0" "" 0).2.1
      (by decide) (by with_unfolding_all decide),
   (C7_amended_tag_version_revision_order "1.0" "" 5 "1.0" "" 3).2.2
      (by decide) (by with_unfolding_all decide)⟩

/-- Claim C4. For the expression `"(a & b)"` — exactly one parenthesized
group — `parse()` does *not* return a pair: the top-level iterable is a
single nested list with no operator token beside it, so
`__evaluate_subs` reaches no `return` and yields `None`, and the tuple
unpacking in `parse()` raises a `TypeError` that the
`except MalformedDependency` clause does not catch (modelled as
`none`).  This contradicts `parse()`'s own documented contract of
always returning a `(bool, list)` tuple, for every leaf predicate. -/
theorem C4_lone_group_crashes :
    ∀ pred : String → Bool, pyParse pred "(a & b)" = none := by
  intro pred
  rfl

/-- Witness for C4: the crash at the concrete failing input with a
concrete predicate. -/
theorem C4_lone_group_crashes_witness :
    pyParse (fun _ => true) "(a & b)" = none :=
  C4_lone_group_crashes (fun _ => true)

/-- Claim C3 (counterexample). For the mixed-operator expression
`"a & b | c"` the `MalformedDependency` is *not* observable by the
caller of `parse()`: `parse()` catches it and returns the ordinary pair
`(False, [])` (it does not propagate, and no exception escapes —
the result is `some`, not the `none` that models a crash). -/
theorem C3_counterexample_caller_sees_pair :
    pyParse (fun _ => true) "a & b | c" = some (false, []) := rfl

/-- Claim C3 (amended). Mixing `&` and `|` at one nesting level makes
`__evaluate_subs` raise `MalformedDependency` (first conjunct, for any
iterable containing both operator tokens), and an empty group makes
`__encode_sub` raise it — but `parse()` catches the exception and
returns `(False, [])` to its caller, as the two concrete expressions
from the claim show. -/
theorem C3_amended_malformed_caught :
    (∀ (fuel : ℕ) (pred : String → Bool) (items : List Item),
      containsStr "&" items = true → containsStr "|" items = true →
      evaluateSubs (fuel + 1) pred items = .error .malformed) ∧
    (∀ pred : String → Bool, pyParse pred "a & b | c" = some (false, [])) ∧
    (∀ pred : String → Bool, pyParse pred "a & ()" = some (false, [])) := by
  refine ⟨?_, ?_, ?_⟩
  · intro fuel pred items h1 h2
    simp [evaluateSubs, h1, h2]
  · intro pred; rfl
  · intro pred; rfl

/-- Witness for C3: the amended statement at concrete inputs. -/
theorem C3_amended_malformed_caught_witness :
    evaluateSubs 1 (fun _ => true) [.str "&", .str "|"] = .error .malformed ∧
    pyParse (fun _ => false) "a & b | c" = some (false, []) ∧
    pyParse (fun _ => false) "a & ()" = some (false, []) :=
  ⟨C3_amended_malformed_caught.1 0 (fun _ => true) [.str "&", .str "|"] rfl rfl,
   C3_amended_malformed_caught.2.1 (fun _ => false),
   C3_amended_malformed_caught.2.2 (fun _ => false)⟩

/-- Claim C5. The OR loop evaluates members left to right, stops at the
first succeeding member and returns only that branch's matched leaves
(first conjunct: any OR iterable split as `pre ++ x :: post` where
every element of `pre` fails and `x` succeeds with outcome `out`
evaluates to `(True, out)` without looking at `post`), and concretely
`"(a & b) | c"` with a predicate rejecting `a` and accepting `b`, `c`
yields `(True, ["c"])` — the failing AND branch contributes nothing. -/
theorem C5_or_first_match_wins :
    (∀ (ev : List Item → Except EvalErr (Option (Bool × List String)))
       (pred : String → Bool) (pre : List Item) (x : Item)
       (post : List Item) (out : List String),
      (∀ e ∈ pre,
        (∃ s, e = .str s ∧ pred s = false) ∨
        (∃ l junk, e = .lst l ∧ ev l = .ok (some (false, junk)))) →
      ((∃ s, x = .str s ∧ pred s = true ∧ out = [s]) ∨
       (∃ l, x = .lst l ∧ ev l = .ok (some (true, out)))) →
      orMixGo ev pred (pre ++ x :: post) = .ok (true, out)) ∧
    pyParse (fun s => s != "a") "(a & b) | c" = some (true, ["c"]) := by
  constructor
  · intro ev pred pre x post out hpre hx
    induction pre with
    | nil =>
      rcases hx with ⟨s, rfl, hs, rfl⟩ | ⟨l, rfl, hl⟩
      · simp [orMixGo, hs]
      · simp [orMixGo, hl]
    | cons e pre ih =>
      have he := hpre e (List.mem_cons_self _ _)
      have hrest : ∀ e ∈ pre,
          (∃ s, e = .str s ∧ pred s = false) ∨
          (∃ l junk, e = .lst l ∧ ev l = .ok (some (false, junk))) :=
        fun e' he' => hpre e' (List.mem_cons_of_mem _ he')
      rcases he with ⟨s, rfl, hs⟩ | ⟨l, junk, rfl, hl⟩
      · simpa [orMixGo, hs] using ih hrest
      · simpa [orMixGo, hl] using ih hrest
  · rfl

/-- Witness for C5: the first-match-wins statement at a concrete
input. -/
theorem C5_or_first_match_wins_witness :
    orMixGo (fun _ => .ok none) (fun s => s != "a")
      [.str "a", .str "c", .str "b"] = .ok (true, ["c"]) :=
  C5_or_first_match_wins.1 (fun _ => .ok none) (fun s => s != "a")
    [.str "a"] (.str "c") [.str "b"] ["c"]
    (by
      intro e he
      simp at he
      exact Or.inl ⟨"a", by simp [he]⟩)
    (Or.inl ⟨"c", rfl, rfl, rfl⟩)

/-- Stripping only removes characters. -/
theorem mem_pyStrip {c : Char} {l : List Char} (h : c ∈ pyStrip l) : c ∈ l := by
  unfold pyStrip at h
  rw [List.mem_reverse] at h
  have h1 : c ∈ (l.dropWhile pyWs).reverse := (List.dropWhile_sublist _).subset h
  rw [List.mem_reverse] at h1
  exact (List.dropWhile_sublist _).subset h1

/-- On operator- and parenthesis-free input the scanner accumulates all
non-space characters into `cur_str` and never recurses: it ends with
the flush of line 865. -/
theorem splitScanGo_no_ops (enc : List Char → Except EvalErr (List Item))
    (deep : Int) (cur : List Char) (subs : List Item) (chars : List Char)
    (h : ∀ c ∈ chars, c ≠ '&' ∧ c ≠ '|' ∧ c ≠ '(' ∧ c ≠ ')') :
    splitScanGo enc deep cur subs chars =
      .ok (if (cur ++ chars.filter (· ≠ ' ')).isEmpty then subs
           else subs ++ [.str (String.mk (pyStrip (cur ++ chars.filter (· ≠ ' '))))]) := by
  induction chars generalizing cur with
  | nil => simp [splitScanGo]
  | cons c rest ih =>
    obtain ⟨h1, h2, h3, h4⟩ := h c (List.mem_cons_self _ _)
    have hrest : ∀ c ∈ rest, c ≠ '&' ∧ c ≠ '|' ∧ c ≠ '(' ∧ c ≠ ')' :=
      fun c' hc' => h c' (List.mem_cons_of_mem _ hc')
    by_cases hsp : c = ' '
    · subst hsp
      rw [splitScanGo]
      simp only [if_pos rfl]
      rw [ih _ hrest]
      simp
    · rw [splitScanGo]
      simp only [if_neg hsp, if_neg h3, h2, h1, h4, false_and, if_neg, if_false,
        not_false_eq_true]
      rw [ih _ hrest]
      have : (c :: rest).filter (· ≠ ' ') = c :: rest.filter (· ≠ ' ') := by
        simp [List.filter_cons, hsp]
      rw [this, ← List.append_cons]

/-- Claim C10. A dependency string that is a single leaf atom — no `&`,
no `|`, no parentheses — makes `parse()` return `(False, [])` for
*every* leaf predicate: the iterable reaching `__evaluate_subs` is a
single string with neither operator token and no sublist, so the
`else` of line 897 raises `MalformedDependency`, which `parse()`
catches.  The matched atom is never reported. -/
theorem C10_single_leaf_never_reported :
    ∀ (pred : String → Bool) (s : String),
      (∀ c ∈ s.data, c ≠ '&' ∧ c ≠ '|' ∧ c ≠ '(' ∧ c ≠ ')') →
      pyParse pred s = some (false, []) := by
  intro pred s hs
  have hfind : pyFind '(' ('(' :: s.data ++ [')']) = some 0 := by
    simp [pyFind, List.findIdx?_cons]
  have hrfind : pyRfind ')' ('(' :: s.data ++ [')']) = some (s.data.length + 1) := by
    simp [pyRfind, List.findIdx?_cons]
  have hsub : ((('(' :: s.data ++ [')']).take (s.data.length + 1)).drop 1) = s.data := by
    show List.drop 1 (List.take (s.data.length + 1) ('(' :: (s.data ++ [')']))) = s.data
    rw [List.take_succ_cons, List.drop_one]
    simp [List.take_left]
  dsimp only [pyParse]
  have hlen : ('(' :: s.data ++ [')']).length + 1 = s.data.length + 2 + 1 := by
    simp
  rw [hlen, encodeSub, hfind, hrfind]
  dsimp only
  rw [hsub]
  by_cases hnil : s.data.isEmpty
  · rw [if_pos hnil]
  · rw [if_neg hnil]
    rw [splitScanGo_no_ops _ _ _ _ _ hs]
    simp only [List.nil_append]
    by_cases hfil : (s.data.filter (· ≠ ' ')).isEmpty
    · rw [if_pos hfil]
    · rw [if_neg hfil]
      set t := String.mk (pyStrip (s.data.filter (· ≠ ' '))) with ht
      have hamp : t ≠ "&" := by
        intro hEq
        have hd : pyStrip (s.data.filter (· ≠ ' ')) = ['&'] := by
          have h0 : t.data = ['&'] := by rw [hEq]
          exact h0
        have hmem : '&' ∈ pyStrip (s.data.filter (· ≠ ' ')) := by
          rw [hd]; exact List.mem_singleton_self _
        have h2 := mem_pyStrip hmem
        rw [List.mem_filter] at h2
        exact (hs _ h2.1).1 rfl
      have hbar : t ≠ "|" := by
        intro hEq
        have hd : pyStrip (s.data.filter (· ≠ ' ')) = ['|'] := by
          have h0 : t.data = ['|'] := by rw [hEq]
          exact h0
        have hmem : '|' ∈ pyStrip (s.data.filter (· ≠ ' ')) := by
          rw [hd]; exact List.mem_singleton_self _
        have h2 := mem_pyStrip hmem
        rw [List.mem_filter] at h2
        exact (hs _ h2.1).2.1 rfl
      dsimp only
      rw [evaluateSubs]
      have hc1 : containsStr "&" [Item.str t] = false := by
        simp [containsStr, hamp]
      have hc2 : containsStr "|" [Item.str t] = false := by
        simp [containsStr, hbar]
      simp [hc1, hc2, hasLst]

/-- Witness for C10: the concrete single-leaf expression of the claim,
with a predicate that accepts everything — the atom still is not
reported. -/
theorem C10_single_leaf_never_reported_witness :
    pyParse (fun _ => true) "app-foo/foo" = some (false, []) :=
  C10_single_leaf_never_reported (fun _ => true) "app-foo/foo" (by decide)

/-! ### Association-list lemmas for the repository stack -/

theorem lookup_eraseKey {α : Type} (k : String) (l : List (String × α)) :
    (eraseKey k l).lookup k = none := by
  rw [List.lookup_eq_none_iff]
  intro p hp
  unfold eraseKey at hp
  rw [List.mem_filter] at hp
  have h2 := hp.2
  simp only [Bool.not_eq_true', beq_eq_false_iff_ne] at h2
  simp only [bne_iff_ne]
  exact fun h => h2 h.symm

theorem lookup_append_none {α : Type} {k : String} {l1 l2 : List (String × α)}
    (h1 : l1.lookup k = none) (h2 : l2.lookup k = none) :
    (l1 ++ l2).lookup k = none := by
  rw [List.lookup_eq_none_iff] at *
  intro p hp
  rcases List.mem_append.mp hp with h | h
  · exact h1 p h
  · exact h2 p h

theorem contains_map_fst_false {α : Type} {k : String} {l : List (String × α)}
    (h : l.lookup k = none) : (l.map Prod.fst).contains k = false := by
  rw [List.lookup_eq_none_iff] at h
  rw [Bool.eq_false_iff]
  intro hc
  obtain ⟨x, hx, hbeq⟩ := List.contains_iff_exists_mem_beq.mp hc
  obtain ⟨p, hp, rfl⟩ := List.mem_map.mp hx
  have := h p hp
  simp only [bne_iff_ne] at this
  exact this (beq_iff_eq.mp hbeq)

theorem contains_erase_of_count_le_one {k : String} {l : List String}
    (h : l.count k ≤ 1) : (l.erase k).contains k = false := by
  have h0 : (l.erase k).count k = 0 := by
    rw [List.count_erase_self]; omega
  have hnm : k ∉ l.erase k := List.not_mem_of_count_eq_zero h0
  rw [Bool.eq_false_iff]
  intro hc
  obtain ⟨x, hx, hbeq⟩ := List.contains_iff_exists_mem_beq.mp hc
  obtain rfl := beq_iff_eq.mp hbeq
  exact hnm hx


/-- Source: `_load_repository` raises `RepositoryError` for an uncached id that
is not in `available` (whether or not it is still in `_enabled_repos`:
either the id check of lines 263–275 or the `repo_data[repoid]` access
of lines 277–280 fails). -/
theorem open_repository_err (rid : String) (fresh : ℕ) (sp : CState)
    (h1 : rid ≠ clientdbid) (h2 : sp.repodbCache.lookup rid = none)
    (h3 : sp.available.lookup rid = none) :
    (open_repository rid fresh sp).1 = .repositoryError := by
  simp [open_repository, h1, h2, h3]

/-- Claim C9. After `remove_repository(repoA)` returns `True`,
`open_repository(repoA)` fails with `RepositoryError`, the id is gone
from the available and excluded maps, the (rebuilt) order sequence and
the enabled list, and the cached handles for the id have been closed.
Stated for any repository id other than the installed-repository alias
`etpConst['clientdbid']` (for which `open_repository` always returns the
installed repository), any state whose persistent configuration holds no
entry for a package-type id, and an enabled list without duplicates —
all guaranteed for repositories that entered the state through
`add_repository`. -/
theorem C9_removed_repository_unavailable :
    ∀ (rid : String) (s : CState) (fresh : ℕ),
      rid ≠ clientdbid →
      (isPackageRepo rid = true →
        s.confAvail.lookup rid = none ∧ s.confExcluded.lookup rid = none) →
      s.enabled.count rid ≤ 1 →
      (remove_repository rid false s).1 = true →
      (open_repository rid fresh (remove_repository rid false s).2).1 = .repositoryError ∧
      (remove_repository rid false s).2.available.lookup rid = none ∧
      (remove_repository rid false s).2.excluded.lookup rid = none ∧
      (remove_repository rid false s).2.order.contains rid = false ∧
      (remove_repository rid false s).2.enabled.contains rid = false ∧
      (∀ h, s.repodbCache.lookup rid = some h →
        h ∈ (remove_repository rid false s).2.closedHandles) ∧
      (∀ h, s.memoryDb.lookup rid = some h →
        h ∈ (remove_repository rid false s).2.closedHandles) := by
  intro rid s fresh hid hconf hcount hdone
  by_cases hd1 : ((s.available.lookup rid).isSome ∨ (s.excluded.lookup rid).isSome)
  · by_cases hpkg : isPackageRepo rid = true
    · dsimp only [remove_repository] at hdone ⊢
      rw [if_pos hd1, if_pos hpkg] at hdone ⊢
      dsimp only [settingsClear] at hdone ⊢
      have hav : (eraseKey rid s.pluginPkg ++ s.confAvail).lookup rid = none :=
        lookup_append_none (lookup_eraseKey _ _) (hconf hpkg).1
      refine ⟨?_, ?_, ?_, ?_, ?_, ?_, ?_⟩
      · exact open_repository_err _ _ _ hid (lookup_eraseKey _ _) hav
      · exact hav
      · exact (hconf hpkg).2
      · exact contains_map_fst_false hav
      · exact contains_erase_of_count_le_one hcount
      · intro h hh
        rw [hh]
        simp
      · intro h hh
        rw [hh]
        simp
    · dsimp only [remove_repository] at hdone ⊢
      rw [if_pos hd1, if_neg hpkg] at hdone ⊢
      simp only [Bool.false_eq_true, if_false] at hdone ⊢
      dsimp only [confRemove, settingsClear] at hdone ⊢
      have hav : (eraseKey rid s.pluginPkg ++ eraseKey rid s.confAvail).lookup rid = none :=
        lookup_append_none (lookup_eraseKey _ _) (lookup_eraseKey _ _)
      refine ⟨?_, ?_, ?_, ?_, ?_, ?_, ?_⟩
      · exact open_repository_err _ _ _ hid (lookup_eraseKey _ _) (by exact hav)
      · exact hav
      · exact lookup_eraseKey _ _
      · exact contains_map_fst_false hav
      · exact contains_erase_of_count_le_one hcount
      · intro h hh
        rw [hh]
        simp
      · intro h hh
        rw [hh]
        simp
  · dsimp only [remove_repository] at hdone
    rw [if_neg hd1] at hdone
    simp at hdone

/-- A concrete one-repository state for the C9 witness. -/
def sampleState : CState :=
  ⟨[("foo", ⟨false⟩)], [], ["foo"], ["foo"], [("foo", 7)], [],
   [("foo", ⟨false⟩)], [], [], [], ["foo"]⟩

/-- Witness for C9: removing the repository `"foo"` from a concrete
state succeeds, and afterwards opening fails with `RepositoryError`,
the maps no longer hold the id, and the cached handle 7 is closed. -/
theorem C9_removed_repository_unavailable_witness :
    (remove_repository "foo" false sampleState).1 = true ∧
    (open_repository "foo" 9 (remove_repository "foo" false sampleState).2).1 =
      .repositoryError ∧
    (remove_repository "foo" false sampleState).2.available.lookup "foo" = none ∧
    (remove_repository "foo" false sampleState).2.enabled.contains "foo" = false ∧
    7 ∈ (remove_repository "foo" false sampleState).2.closedHandles :=
  ⟨by decide,
   (C9_removed_repository_unavailable "foo" sampleState 9 (by decide) (by decide)
      (by decide) (by decide)).1,
   (C9_removed_repository_unavailable "foo" sampleState 9 (by decide) (by decide)
      (by decide) (by decide)).2.1,
   (C9_removed_repository_unavailable "foo" sampleState 9 (by decide) (by decide)
      (by decide) (by decide)).2.2.2.2.1,
   (C9_removed_repository_unavailable "foo" sampleState 9 (by decide) (by decide)
      (by decide) (by decide)).2.2.2.2.2.1 7 (by decide)⟩

set_option maxRecDepth 2000 in
/-- Claim C8 (counterexample). The relation `compare_versions(x,y) ≤ 0` is
*not* transitive on valid version strings.  Dotted segments are compared
as ints only when neither has a leading zero, and as
`float("0."+segment)` otherwise; the doubles of `"0.10"` and of
`"0.09999999999999999999"` round to the same value, so
`"1.10" ≤ "1.09999999999999999999" ≤ "1.1"` (both compare equal through
the float branch) while `"1.10" > "1.1"` (int branch, 10 > 1). -/
theorem C8_counterexample_not_transitive :
    (parseVer "1.10").isSome = true ∧
    (parseVer "1.09999999999999999999").isSome = true ∧
    (parseVer "1.1").isSome = true ∧
    compare_versions "1.10" "1.09999999999999999999" ≤ 0 ∧
    compare_versions "1.09999999999999999999" "1.1" ≤ 0 ∧
    ¬ compare_versions "1.10" "1.1" ≤ 0 :=
  ⟨by decide, by decide, by decide,
   le_of_eq (by decide), le_of_eq (by decide),
   by with_unfolding_all decide⟩

/-! ### Antisymmetry of `compare_versions` on valid versions

The comparison of two matched versions is built from pairwise loops
whose swap behaviour is established lemma by lemma; the only subtlety
is the degenerate "empty segment" that `group(3)[1:].split(".")`
produces for a version without dotted segments, which is why the
segment-level swap lemmas carry nonemptiness hypotheses discharged by
`parseVer_dotted_ne`. -/

theorem cmpLoop_swap (l1 l2 : List ℚ) :
    cmpLoop l2 l1 = (cmpLoop l1 l2).map (fun d => -d) := by
  induction l1 generalizing l2 with
  | nil =>
    cases l2 with
    | nil => rfl
    | cons b bs => rfl
  | cons a as ih =>
    cases l2 with
    | nil => rfl
    | cons b bs =>
      by_cases hab : a = b
      · subst hab
        simp [cmpLoop, ih]
      · have hba : b ≠ a := fun h => hab h.symm
        simp [cmpLoop, hab, hba, neg_sub]

theorem sufStep_swap (a b : String × List Char) (r : Option ℤ) :
    sufStep b a (r.map (fun z => -z)) = (sufStep a b r).map (fun z => -z) := by
  unfold sufStep
  by_cases h1 : a.1 = b.1
  · by_cases h2 : a.2 = b.2
    · simp [h1, h2]
    · have h2b : b.2 ≠ a.2 := fun h => h2 h.symm
      simp [h1, h2, h2b, neg_sub]
  · have h1b : b.1 ≠ a.1 := fun h => h1 h.symm
    simp [h1, h1b, neg_sub]

theorem sufLoopL_swap (bs : List (String × List Char)) :
    sufLoopL bs = (sufLoopR bs).map (fun z => -z) := by
  induction bs with
  | nil => rfl
  | cons b rest ih =>
    show sufStep b ("p", ['0']) (sufLoopL rest) = _
    rw [ih, sufStep_swap]
    rfl

theorem sufLoopR_swap (bs : List (String × List Char)) :
    sufLoopR bs = (sufLoopL bs).map (fun z => -z) := by
  rw [sufLoopL_swap, Option.map_map]
  have : ((fun z : ℤ => -z) ∘ fun z : ℤ => -z) = id := by
    funext z; simp
  rw [this]
  simp

theorem sufLoop_swap (l1 l2 : List (String × List Char)) :
    sufLoop l2 l1 = (sufLoop l1 l2).map (fun z => -z) := by
  induction l1 generalizing l2 with
  | nil =>
    cases l2 with
    | nil => rfl
    | cons b bs =>
      show sufStep b ("p", ['0']) (sufLoopL bs) = _
      rw [sufLoopL_swap, sufStep_swap]
      rfl
  | cons a as ih =>
    cases l2 with
    | nil =>
      show sufLoopR (a :: as) = _
      show sufStep ("p", ['0']) a (sufLoopR as) = _
      rw [sufLoopR_swap, sufStep_swap]
      rfl
    | cons b bs =>
      show sufStep b a (sufLoop bs as) = _
      rw [ih, sufStep_swap]
      rfl

theorem segPairs_nil_swap (ys : List (List Char)) :
    segPairs ys [] = (segPairs [] ys).map Prod.swap := by
  cases ys with
  | nil => rfl
  | cons y ys =>
    show (intQ y, -1) :: ys.map (fun x' => (intQ x', -1)) = _
    simp [segPairs, List.map_map, Function.comp_def]

theorem map_swap_swap (l : List (ℚ × ℚ)) : (l.map Prod.swap).map Prod.swap = l := by
  rw [List.map_map]
  simp [Function.comp_def]

theorem segPairs_swap (xs ys : List (List Char))
    (hx : ∀ x ∈ xs, x ≠ []) (hy : ∀ y ∈ ys, y ≠ []) :
    segPairs ys xs = (segPairs xs ys).map Prod.swap := by
  induction xs generalizing ys with
  | nil => exact segPairs_nil_swap ys
  | cons x xs ih =>
    cases ys with
    | nil =>
      rw [segPairs_nil_swap (x :: xs), map_swap_swap]
    | cons y ys =>
      have hx1 : x ≠ [] := hx x (List.mem_cons_self _ _)
      have hy1 : y ≠ [] := hy y (List.mem_cons_self _ _)
      have hxr : ∀ x' ∈ xs, x' ≠ [] := fun a ha => hx a (List.mem_cons_of_mem _ ha)
      have hyr : ∀ y' ∈ ys, y' ≠ [] := fun a ha => hy a (List.mem_cons_of_mem _ ha)
      show (if y = [] then (-1, intQ x)
            else if x = [] then (intQ y, -1)
            else if y.head? ≠ some '0' ∧ x.head? ≠ some '0' then (intQ y, intQ x)
            else (toDouble y, toDouble x)) :: segPairs ys xs = _
      rw [ih ys hxr hyr]
      by_cases cy : y.head? = some '0'
      · simp [segPairs, hx1, hy1, cy]
      · by_cases cx : x.head? = some '0'
        · simp [segPairs, hx1, hy1, cx, cy]
        · simp [segPairs, hx1, hy1, cx, cy]

theorem dottedPairs_core_swap (P Q : List (List Char))
    (hp : ∀ x ∈ P, x ≠ []) (hq : ∀ y ∈ Q, y ≠ []) :
    (if Q.isEmpty ∧ P.isEmpty then ([] : List (ℚ × ℚ))
     else segPairs (adjD Q) (adjD P)) =
    (if P.isEmpty ∧ Q.isEmpty then ([] : List (ℚ × ℚ))
     else segPairs (adjD P) (adjD Q)).map Prod.swap := by
  cases P with
  | nil =>
    cases Q with
    | nil => simp
    | cons y ys =>
      have hy1 : y ≠ [] := hq y (List.mem_cons_self _ _)
      simp only [List.isEmpty_nil, List.isEmpty_cons, and_true, true_and,
        Bool.false_eq_true, if_neg, not_false_eq_true]
      unfold adjD
      simp only [List.isEmpty_nil, List.isEmpty_cons, if_pos, Bool.false_eq_true,
        if_neg, not_false_eq_true]
      rw [show segPairs (y :: ys) [[]] = (intQ y, -1) :: segPairs ys [] by
        simp [segPairs, hy1]]
      rw [show segPairs [[]] (y :: ys) = (-1, intQ y) :: segPairs [] ys by
        simp [segPairs, hy1]]
      rw [segPairs_nil_swap ys]
      simp
  | cons x xs =>
    cases Q with
    | nil =>
      have hx1 : x ≠ [] := hp x (List.mem_cons_self _ _)
      simp only [List.isEmpty_nil, List.isEmpty_cons, and_true, true_and,
        Bool.false_eq_true, if_neg, not_false_eq_true]
      unfold adjD
      simp only [List.isEmpty_nil, List.isEmpty_cons, if_pos, Bool.false_eq_true,
        if_neg, not_false_eq_true]
      rw [show segPairs [[]] (x :: xs) = (-1, intQ x) :: segPairs [] xs by
        simp [segPairs, hx1]]
      rw [show segPairs (x :: xs) [[]] = (intQ x, -1) :: segPairs xs [] by
        simp [segPairs, hx1]]
      rw [segPairs_nil_swap xs]
      simp [map_swap_swap]
    | cons y ys =>
      simp only [List.isEmpty_cons, Bool.false_eq_true, false_and, if_neg,
        not_false_eq_true]
      unfold adjD
      simp only [List.isEmpty_cons, Bool.false_eq_true, if_neg, not_false_eq_true]
      exact segPairs_swap _ _ hp hq

theorem dottedPairs_swap (p q : PyVer)
    (hp : ∀ seg ∈ p.dotted, seg ≠ []) (hq : ∀ seg ∈ q.dotted, seg ≠ []) :
    dottedPairs q p = (dottedPairs p q).map Prod.swap := by
  unfold dottedPairs
  exact dottedPairs_core_swap p.dotted q.dotted hp hq

theorem vlist1_swap (p q : PyVer)
    (hp : ∀ seg ∈ p.dotted, seg ≠ []) (hq : ∀ seg ∈ q.dotted, seg ≠ []) :
    vlist1 q p = vlist2 p q := by
  unfold vlist1 vlist2
  rw [dottedPairs_swap p q hp hq, List.map_map]
  simp [Function.comp_def]

theorem vlist2_swap (p q : PyVer)
    (hp : ∀ seg ∈ p.dotted, seg ≠ []) (hq : ∀ seg ∈ q.dotted, seg ≠ []) :
    vlist2 q p = vlist1 p q := by
  unfold vlist1 vlist2
  rw [dottedPairs_swap p q hp hq, List.map_map]
  simp [Function.comp_def]

theorem versionsCmpQ_swap (p q : PyVer)
    (hp : ∀ seg ∈ p.dotted, seg ≠ []) (hq : ∀ seg ∈ q.dotted, seg ≠ []) :
    versionsCmpQ q p = -versionsCmpQ p q := by
  unfold versionsCmpQ
  rw [vlist1_swap p q hp hq, vlist2_swap p q hp hq, cmpLoop_swap]
  cases hcl : cmpLoop (vlist1 p q) (vlist2 p q) with
  | some d => simp
  | none =>
    dsimp only [Option.map]
    rw [sufLoop_swap]
    cases hsl : sufLoop p.suffixes q.suffixes with
    | some z => simp
    | none =>
      dsimp only [Option.map]
      push_cast
      ring


theorem dotsGo_ne (st : Option (List Char)) (l : List Char)
    (h0 : ∀ ds, st = some ds → ds ≠ []) :
    ∀ seg ∈ (dotsGo st l).1, seg ≠ [] := by
  induction st, l using dotsGo.induct with
  | case1 => intro seg hs; simp [dotsGo] at hs
  | case2 c => intro seg hs; simp [dotsGo] at hs
  | case3 c1 c2 rest hcond ih =>
    rw [dotsGo, if_pos hcond]
    exact ih (by intro ds hds; cases hds; simp)
  | case4 c1 c2 rest hcond =>
    rw [dotsGo, if_neg hcond]
    intro seg hs; simp at hs
  | case5 ds =>
    intro seg hs
    simp [dotsGo] at hs
    rw [hs]
    exact h0 ds rfl
  | case6 ds c1 hdig ih =>
    rw [dotsGo, if_pos hdig]
    exact ih (by intro d hd; cases hd; simp)
  | case7 ds c1 hnd =>
    intro seg hs
    rw [dotsGo, if_neg hnd] at hs
    simp at hs
    rw [hs]
    exact h0 ds rfl
  | case8 ds c1 c2 r2 hdig ih =>
    rw [dotsGo, if_pos hdig]
    exact ih (by intro d hd; cases hd; simp)
  | case9 ds c2 r2 hc2 segs r heq hnd ih =>
    intro seg hs
    rw [dotsGo, if_neg hnd, if_pos rfl, if_pos hc2] at hs
    rw [heq] at hs
    dsimp only at hs
    rcases List.mem_cons.mp hs with rfl | hmem
    · exact h0 seg rfl
    · have := ih (by intro d hd; cases hd; simp)
      rw [heq] at this
      exact this seg hmem
  | case10 ds c2 r2 hc2 hnd =>
    intro seg hs
    rw [dotsGo, if_neg hnd, if_pos rfl, if_neg hc2] at hs
    simp at hs
    rw [hs]
    exact h0 ds rfl
  | case11 ds c1 c2 r2 hnd hdot =>
    intro seg hs
    rw [dotsGo, if_neg hnd, if_neg hdot] at hs
    simp at hs
    rw [hs]
    exact h0 ds rfl


theorem parseVer_dotted_ne {s : String} {p : PyVer} (h : parseVer s = some p) :
    ∀ seg ∈ p.dotted, seg ≠ [] := by
  unfold parseVer at h
  dsimp only at h
  split at h
  · exact absurd h (by simp)
  · split at h
    · exact absurd h (by simp)
    · split at h
      · cases h
        exact dotsGo_ne none _ (by intro ds hds; simp at hds)
      · exact absurd h (by simp)

theorem compare_versions_antisym (a b : String)
    (ha : (parseVer a).isSome) (hb : (parseVer b).isSome) :
    compare_versions a b = -(compare_versions b a) := by
  by_cases hab : a = b
  · subst hab
    simp [compare_versions]
  · obtain ⟨p, hp⟩ := Option.isSome_iff_exists.mp ha
    obtain ⟨q, hq⟩ := Option.isSome_iff_exists.mp hb
    have hba : b ≠ a := fun hEq => hab hEq.symm
    simp only [compare_versions, if_neg hab, if_neg hba, hp, hq]
    rw [versionsCmpQ_swap p q (parseVer_dotted_ne hp) (parseVer_dotted_ne hq)]
    ring

/-- Claim C8 (amended). On strings accepted by `ver_regexp`,
`compare_versions` is antisymmetric (the swapped comparison is the
exact negation, so in particular the signs are opposite) and every pair
is comparable; but the induced relation `compare_versions x y ≤ 0` is
*not* transitive — mixed leading-zero/plain dotted segments break it,
as the counterexample theorem shows. -/
theorem C8_amended_antisym_total :
    (∀ a b : String, (parseVer a).isSome → (parseVer b).isSome →
      compare_versions a b = -(compare_versions b a)) ∧
    (∀ a b : String, (parseVer a).isSome → (parseVer b).isSome →
      compare_versions a b ≤ 0 ∨ compare_versions b a ≤ 0) := by
  constructor
  · exact compare_versions_antisym
  · intro a b ha hb
    rcases le_or_lt (compare_versions a b) 0 with hle | hgt
    · exact Or.inl hle
    · right
      have hA := compare_versions_antisym a b ha hb
      linarith

/-- Witness for C8: antisymmetry and comparability at concrete valid
versions. -/
theorem C8_amended_antisym_total_witness :
    compare_versions "1.0" "2.0" = -(compare_versions "2.0" "1.0") ∧
    (compare_versions "1.0" "2.0" ≤ 0 ∨ compare_versions "2.0" "1.0" ≤ 0) :=
  ⟨C8_amended_antisym_total.1 "1.0" "2.0" (by decide) (by decide),
   C8_amended_antisym_total.2 "1.0" "2.0" (by decide) (by decide)⟩

end Entropy
